import Mathlib

/-!
Verification of the pbm-auto-conversion backend services.

Shallow embedding of the Python services in
`backend/app/services/` (transformation engine, parsers, task manager,
job processor, mapping fallback, output generators), with theorems
settling the specification claims.

Python dictionaries with string keys are modelled as association lists
with Python's dict semantics (assignment to an existing key replaces the
value in place; a fresh key is appended).  Python runtime values flowing
through rows are modelled by `PyValue`.  Code that can raise is modelled
with `Except String`.
-/

namespace PBM

/-- Model of a Python runtime value as it flows through parsed rows. -/
inductive PyValue where
  | none
  | str (s : String)
  | intV (n : Int)
  | boolV (b : Bool)
deriving DecidableEq, Repr

/-- A parsed row: a Python dict from column names to values. -/
abbrev Row := List (String × PyValue)

/-- Lookup in a Python dict (first matching key). -/
def rowLookup : Row → String → Option PyValue
  | [], _ => Option.none
  | (k0, v0) :: rest, k => if k0 = k then some v0 else rowLookup rest k

/-- `row.get(key)` — missing keys yield Python `None`. -/
def rowGet (row : Row) (k : String) : PyValue :=
  (rowLookup row k).getD PyValue.none

/-- `d[k] = v` on a Python dict: replace the value at an existing key in
place, otherwise append the new binding. -/
def dictInsert : Row → String → PyValue → Row
  | [], k, v => [(k, v)]
  | (k0, v0) :: rest, k, v =>
    if k0 = k then (k0, v) :: rest else (k0, v0) :: dictInsert rest k v

/-- `TransformationRule` from `transformers/engine.py`.  `apply` models
`TransformationRule.apply` as a whole: built-in transformation types are
total, but a custom `transformation_func` may raise, hence the
`Except String` result. -/
structure TransformationRule where
  source_column : String
  target_column : String
  apply : PyValue → Except String PyValue

/-- The loop body of `TransformationEngine.transform_row`: apply each rule
to `row.get(rule.source_column)` and store the result under
`rule.target_column`, short-circuiting on the first raised error. -/
def applyRules (row : Row) : List TransformationRule → Row → Except String Row
  | [], acc => Except.ok acc
  | r :: rs, acc =>
    match r.apply (rowGet row r.source_column) with
    | Except.error e => Except.error e
    | Except.ok v => applyRules row rs (dictInsert acc r.target_column v)

/-- `TransformationEngine.transform_row` (engine.py lines 98–115). -/
def transform_row (rules : List TransformationRule) (row : Row) : Except String Row :=
  applyRules row rules []

/-- One entry of `TransformationEngine.validation_errors`. -/
structure ValidationError where
  row_index : Nat
  error : String
  row_data : Row
deriving DecidableEq, Repr

/-- Recursion of `TransformationEngine.transform_data` (engine.py lines
117–140): each row is transformed inside a try/except; a failing row is
skipped and recorded as one validation error. -/
def transformDataGo (rules : List TransformationRule) :
    Nat → List Row → List Row × List ValidationError
  | _, [] => ([], [])
  | idx, row :: rest =>
    let out := transformDataGo rules (idx + 1) rest
    match transform_row rules row with
    | Except.ok t => (t :: out.1, out.2)
    | Except.error e => (out.1, ⟨idx, e, row⟩ :: out.2)

/-- `TransformationEngine.transform_data` on a fresh engine (its
`validation_errors` list starts empty): returns the transformed rows and
the validation errors recorded.  It never raises: the per-row try/except
makes the result a plain pair. -/
def transform_data (rules : List TransformationRule) (data : List Row) :
    List Row × List ValidationError :=
  transformDataGo rules 0 data

/-- The last configured rule writing to target column `k`
(rule application order is configuration order, so this rule's value is
the one that survives in the output dict). -/
def lastRuleFor (rules : List TransformationRule) (k : String) : Option TransformationRule :=
  (rules.filter (fun r => decide (r.target_column = k))).getLast?

/-- A rule whose custom function raises exactly on the value `"boom"`. -/
def failRule : TransformationRule :=
  ⟨"c", "c", fun v => if v = PyValue.str "boom" then Except.error "boom" else Except.ok v⟩

/-- Ten concrete input rows; only the row at index 4 makes `failRule` raise. -/
def tenRows : List Row :=
  [[("c", PyValue.str "r0")], [("c", PyValue.str "r1")], [("c", PyValue.str "r2")],
   [("c", PyValue.str "r3")], [("c", PyValue.str "boom")], [("c", PyValue.str "r5")],
   [("c", PyValue.str "r6")], [("c", PyValue.str "r7")], [("c", PyValue.str "r8")],
   [("c", PyValue.str "r9")]]

/-- Identity ("direct") rule reading column `a` into target `t`. -/
def c8RuleA : TransformationRule := ⟨"a", "t", fun v => Except.ok v⟩

/-- Identity ("direct") rule reading column `b` into the same target `t`. -/
def c8RuleB : TransformationRule := ⟨"b", "t", fun v => Except.ok v⟩

/-- A concrete row with two source columns. -/
def c8Row : Row := [("a", PyValue.str "x"), ("b", PyValue.str "y")]

/-! ### `BaseParser.infer_data_type` (parsers/base.py lines 69–107)

The inference is modelled for string inputs (every parser feeds it the
string field values it extracted).  Python's `int(...)` / `float(...)`
literal syntax, `str.strip`, `str.lower` and `str.isdigit` are modelled
over ASCII, which covers the data the parsers produce. -/

/-- Whitespace stripped by Python's `str.strip()` (ASCII fragment). -/
def isPyWs (c : Char) : Bool :=
  c = ' ' || c = '\t' || c = '\n' || c = '\x0d' || c = '\x0b' || c = '\x0c'

/-- Drop trailing Python whitespace. -/
def dropTrailWs (cs : List Char) : List Char :=
  ((cs.reverse).dropWhile isPyWs).reverse

/-- Python `str.strip()` on a character list. -/
def stripPyWs (cs : List Char) : List Char :=
  dropTrailWs (cs.dropWhile isPyWs)

/-- Continuation of a Python numeric digit run: after at least one digit,
further digits may follow, with single underscores allowed only between
digits (`1_0` is valid, `1__0` and `1_` are not). -/
def digitsURest : List Char → Bool
  | [] => true
  | c :: rest =>
    if c = '_' then
      match rest with
      | c2 :: rest2 => c2.isDigit && digitsURest rest2
      | [] => false
    else c.isDigit && digitsURest rest

/-- A full Python digit run: `[0-9](_?[0-9])*`. -/
def digitsU : List Char → Bool
  | [] => false
  | c :: rest => c.isDigit && digitsURest rest

/-- Python `int(s)` literal acceptance after stripping: optional sign then
a digit run. -/
def pyIntStr : List Char → Bool
  | [] => false
  | c :: rest => if c = '+' || c = '-' then digitsU rest else digitsU (c :: rest)

/-- Does Python `int(s)` succeed on the string `s`? -/
def pyIntable (s : String) : Bool :=
  pyIntStr (stripPyWs s.data)

/-- ASCII model of Python's `str.lower` on one character. -/
def pyToLower (c : Char) : Char :=
  if 'A' ≤ c ∧ c ≤ 'Z' then Char.ofNat (c.toNat + 32) else c

/-- Python `str.lower()`. -/
def pyLower (s : String) : String :=
  ⟨s.data.map pyToLower⟩

/-- The `inf` / `infinity` / `nan` spellings accepted by `float(...)`
(case-insensitive, sign already removed). -/
def pyInfNan (cs : List Char) : Bool :=
  let l := cs.map pyToLower
  l = ['i', 'n', 'f'] || l = ['i', 'n', 'f', 'i', 'n', 'i', 't', 'y'] ||
    l = ['n', 'a', 'n']

/-- Consume the longest valid continuation of a digit run (digits, and
underscores that sit between digits), returning the remainder. -/
def chompRest : List Char → List Char
  | [] => []
  | c :: rest =>
    if c.isDigit then chompRest rest
    else if c = '_' then
      match rest with
      | c2 :: rest2 => if c2.isDigit then chompRest rest2 else c :: rest
      | [] => c :: rest
    else c :: rest

/-- Exponent of a float literal: after `e`/`E`, optional sign then digits. -/
def pyExpTail : List Char → Bool
  | [] => false
  | c :: rest => if c = '+' || c = '-' then digitsU rest else digitsU (c :: rest)

/-- After the fractional digit run: only an exponent (or the end) may follow. -/
def pyAfterFracDigits : List Char → Bool
  | [] => true
  | c :: rest => if c = 'e' || c = 'E' then pyExpTail rest else false

/-- After the decimal point when integer digits were present: optional
fractional digits, then an optional exponent. -/
def pyAfterDot : List Char → Bool
  | [] => true
  | c :: rest =>
    if c = 'e' || c = 'E' then pyExpTail rest
    else c.isDigit && pyAfterFracDigits (chompRest rest)

/-- After the integer digit run of a float literal: optional fraction,
optional exponent. -/
def pyAfterIntDigits : List Char → Bool
  | [] => true
  | c :: rest =>
    if c = '.' then pyAfterDot rest
    else if c = 'e' || c = 'E' then pyExpTail rest
    else false

/-- Float literal starting with a leading decimal point: at least one
fractional digit is required, then an optional exponent. -/
def pyDotNoInt : List Char → Bool
  | [] => false
  | c :: rest => c.isDigit && pyAfterFracDigits (chompRest rest)

/-- Numeric part of a Python float literal (sign already removed). -/
def pyFloatNum : List Char → Bool
  | [] => false
  | c :: rest =>
    if c = '.' then pyDotNoInt rest
    else c.isDigit && pyAfterIntDigits (chompRest rest)

/-- Python `float(s)` literal acceptance after stripping: optional sign,
then `inf`/`nan` or a numeric literal. -/
def pyFloatStr : List Char → Bool
  | [] => false
  | c :: rest =>
    if c = '+' || c = '-' then pyInfNan rest || pyFloatNum rest
    else pyInfNan (c :: rest) || pyFloatNum (c :: rest)

/-- Does Python `float(s)` succeed on the string `s`? -/
def pyFloatable (s : String) : Bool :=
  pyFloatStr (stripPyWs s.data)

/-- The boolean spellings checked by `infer_data_type`:
`str(value).lower() in ['true', 'false', 'yes', 'no']`. -/
def pyBoolLike (s : String) : Bool :=
  pyLower s = "true" || pyLower s = "false" || pyLower s = "yes" || pyLower s = "no"

/-- Is the character one of the date separators `-` / `/`? -/
def isSepChar (c : Char) : Bool := c = '-' || c = '/'

/-- `value_str.replace('-', '/').split('/')`: split on both separators,
keeping empty parts, as Python's `str.split` with an argument does. -/
def splitSeps : List Char → List (List Char)
  | [] => [[]]
  | c :: rest =>
    if isSepChar c then [] :: splitSeps rest
    else
      match splitSeps rest with
      | [] => [[c]]
      | p :: ps => (c :: p) :: ps

/-- Python `str.isdigit()` (ASCII fragment): nonempty and all digits. -/
def pyStrIsdigit (p : List Char) : Bool :=
  !p.isEmpty && p.all Char.isDigit

/-- The date heuristic of `infer_data_type`: the string contains `-` or
`/`, and splitting on them yields at least two parts, all of which are
nonempty digit runs. -/
def dateCheck (s : String) : Bool :=
  s.data.any isSepChar &&
    (let parts := splitSeps s.data
     decide (2 ≤ parts.length) && parts.all pyStrIsdigit)

/-- `BaseParser.infer_data_type` for string inputs (base.py lines 69–107).
The Python `try`/`except` blocks around `int(value)` and `float(value)`
are modelled by the total acceptance tests, so the function is total by
construction — no input makes it raise. -/
def infer_data_type (s : String) : String :=
  if s = "" then "null"
  else if pyIntable s then "integer"
  else if pyFloatable s then "float"
  else if pyBoolLike s then "boolean"
  else if dateCheck s then "date"
  else "string"

/-! ### `MappingService._fallback_mapping` (ai/mapping_service.py lines 167–224)

The rule-based fallback: an exact-match pass, then a case/underscore/
space-insensitive pass.  The float field `overall_confidence` is not
modelled (the claims do not mention it); `mapped_inputs` and
`mapped_references` sets are modelled as lists with membership tests. -/

/-- `col.lower().replace('_', '').replace(' ', '')`: lowercase, then drop
every underscore and space. -/
def normalizeCol (s : String) : String :=
  ⟨(s.data.map pyToLower).filter (fun c => !(c = '_' || c = ' '))⟩

/-- One recommended column mapping, as built by `_fallback_mapping`. -/
structure ColumnMapping where
  input_column : String
  reference_column : String
  confidence : Nat
  reasoning : String
  transformation : String
deriving DecidableEq, Repr

/-- The dictionary `_fallback_mapping` returns (`fallback_used` is always
`True` there and is omitted, as is the float `overall_confidence`). -/
structure FallbackResult where
  mappings : List ColumnMapping
  unmapped_input_columns : List String
  unmapped_reference_columns : List String
deriving DecidableEq, Repr

/-- Fold state of the two mapping passes: accumulated mappings,
`mapped_inputs` and `mapped_references`. -/
structure FallbackAcc where
  mappings : List ColumnMapping
  mapped_inputs : List String
  mapped_references : List String
deriving DecidableEq, Repr

/-- First pass of `_fallback_mapping`: exact name matches, confidence 100. -/
def fallbackExactPass (reference_columns : List String) (acc : FallbackAcc)
    (input_columns : List String) : FallbackAcc :=
  input_columns.foldl
    (fun acc input_col =>
      if input_col ∈ reference_columns then
        ⟨acc.mappings ++ [⟨input_col, input_col, 100, "Exact name match", "none"⟩],
         acc.mapped_inputs ++ [input_col], acc.mapped_references ++ [input_col]⟩
      else acc)
    acc

/-- Inner loop of the second pass: the first reference column that is not
yet mapped and whose normalized name equals `input_lower` (the Python
loop `break`s at the first hit). -/
def findCaseInsensitive (input_lower : String) (mapped_references : List String) :
    List String → Option String
  | [] => Option.none
  | ref :: rest =>
    if ref ∈ mapped_references then findCaseInsensitive input_lower mapped_references rest
    else if normalizeCol ref = input_lower then some ref
    else findCaseInsensitive input_lower mapped_references rest

/-- Second pass of `_fallback_mapping`: case/underscore/space-insensitive
matches, confidence 90. -/
def fallbackCaseInsensitivePass (reference_columns : List String) (acc : FallbackAcc)
    (input_columns : List String) : FallbackAcc :=
  input_columns.foldl
    (fun acc input_col =>
      if input_col ∈ acc.mapped_inputs then acc
      else
        match findCaseInsensitive (normalizeCol input_col) acc.mapped_references
            reference_columns with
        | some ref =>
          ⟨acc.mappings ++ [⟨input_col, ref, 90, "Case-insensitive match", "rename"⟩],
           acc.mapped_inputs ++ [input_col], acc.mapped_references ++ [ref]⟩
        | none => acc)
    acc

/-- `MappingService._fallback_mapping`, applied to the `columns` lists of
the two structures. -/
def fallback_mapping (input_columns reference_columns : List String) : FallbackResult :=
  let acc := fallbackExactPass reference_columns ⟨[], [], []⟩ input_columns
  let acc := fallbackCaseInsensitivePass reference_columns acc input_columns
  ⟨acc.mappings,
   input_columns.filter (fun c => !decide (c ∈ acc.mapped_inputs)),
   reference_columns.filter (fun c => !decide (c ∈ acc.mapped_references))⟩

/-! ### `BackgroundTaskManager` (task_manager.py)

The `jobs` table row for a single job is modelled by `JobState`, and
`update_job_status` by a pure state update.  The fields the claims do not
mention (`updated_at`, foreign keys) are omitted. -/

/-- The status/progress columns of one row of the `jobs` table. -/
structure JobState where
  status : String
  progress : Int
  error_message : Option String
  result_file_id : Option String
deriving DecidableEq, Repr

/-- `BackgroundTaskManager.update_job_status` (task_manager.py lines
67–99): the status is always written; `progress` is clamped to
`[0, 100]` and written only when not `None`; `error_message` and
`result_file_id` are written only when truthy (not `None` and not the
empty string — Python's `if error_message:`). -/
def update_job_status (st : JobState) (status : String) (progress : Option Int)
    (error_message : Option String) (result_file_id : Option String) : JobState :=
  { status := status
    progress :=
      match progress with
      | some p => min 100 (max 0 p)
      | none => st.progress
    error_message :=
      match error_message with
      | some m => if m = "" then st.error_message else some m
      | none => st.error_message
    result_file_id :=
      match result_file_id with
      | some r => if r = "" then st.result_file_id else some r
      | none => st.result_file_id }

/-- `BackgroundTaskManager.execute_task` (task_manager.py lines 106–146).
The job body is a state transformer that returns either a result (with an
optional `result_file_id`) or a raised error message.  On success the job
is marked `completed` at progress 100; on an exception the job is marked
`failed` and the exception is re-raised (returned as `Except.error`). -/
def execute_task (st : JobState)
    (body : JobState → JobState × Except String (Option String)) :
    JobState × Except String (Option String) :=
  let st1 := update_job_status st "processing" (some 0) Option.none Option.none
  match body st1 with
  | (st2, Except.ok rf) =>
    (update_job_status st2 "completed" (some 100) Option.none rf, Except.ok rf)
  | (st2, Except.error e) =>
    (update_job_status st2 "failed" Option.none (some e) Option.none, Except.error e)

/-- An entry of `BackgroundTaskManager._active_tasks`: an asyncio task
handle; `done` is `task.done()`. -/
structure TaskHandle where
  done : Bool
deriving DecidableEq, Repr

/-- Manager-level state for one job: the database row, the registered
task handle (if `start_background_task` ran), and the trace of statuses
ever written for the job. -/
structure ManagerState where
  job : JobState
  task : Option TaskHandle
  history : List String
deriving DecidableEq, Repr

/-- `BackgroundTaskManager.create_job`: inserts a `pending` row with
progress 0; no task is registered yet. -/
def create_job : ManagerState :=
  ⟨⟨"pending", 0, Option.none, Option.none⟩, Option.none, ["pending"]⟩

/-- `BackgroundTaskManager.start_background_task`: `asyncio.create_task`
schedules the job body and registers the handle in `_active_tasks`; the
body (which would write `processing`) has not begun executing yet. -/
def start_background_task (st : ManagerState) : ManagerState :=
  { st with task := some ⟨false⟩ }

/-- A status write through `update_job_status`, also recorded in the
status trace. -/
def recordStatus (st : ManagerState) (status : String) (progress : Option Int)
    (error_message result_file_id : Option String) : ManagerState :=
  { st with
    job := update_job_status st.job status progress error_message result_file_id
    history := st.history ++ [status] }

/-- `BackgroundTaskManager.cancel_job` (task_manager.py lines 178–195):
if a task is registered and not done, cancel it, mark the job
`cancelled` and return `True`; otherwise change nothing and return
`False` (the "not running" signal the jobs API reports back). -/
def cancel_job (st : ManagerState) : ManagerState × Bool :=
  match st.task with
  | some t =>
    if !t.done then
      (recordStatus st "cancelled" Option.none Option.none Option.none, true)
    else (st, false)
  | none => (st, false)

/-! ### `JobProcessor.process_batch_files` (job_processor.py lines 160–210)

Items are `(file_id, outcome)` pairs, the outcome being the result of
`ParsingService.analyze_structure` for that file or the error it raised.
The progress expression `int(((idx + 1) / total) * 100)` is evaluated by
CPython in IEEE-754 binary64 arithmetic, which is modelled exactly below:
a binary64 value is a dyadic rational `m · 2^e`, and each operation
rounds its exact rational result to 53 significant bits, ties to even.
The exponent is left unbounded — faithful to binary64 whenever no
overflow or underflow occurs, which holds for every batch size below
`2^970`.  (`total = 0` would raise `ZeroDivisionError` in Python; the
loop body never runs on an empty list, so that case is unreachable and
mapped to 0.) -/

/-- Round `num / den` to the nearest integer, ties to even (`den ≠ 0`). -/
def roundHalfEven (num den : Nat) : Nat :=
  let q := num / den
  let r := num % den
  if 2 * r < den then q
  else if den < 2 * r then q + 1
  else if q % 2 = 0 then q else q + 1

/-- Fuel-driven `⌊log2 n⌋`: halve until the value reaches 1.  Fuel `n`
is ample, since `⌊log2 n⌋ ≤ n`.  (Structural recursion on the fuel keeps
the definition kernel-reducible.) -/
def log2Fuel : Nat → Nat → Nat
  | 0, _ => 0
  | fuel + 1, n => if n ≤ 1 then 0 else log2Fuel fuel (n / 2) + 1

/-- `⌊log2 n⌋` for `n ≥ 1` (0 at 0). -/
def natLog2 (n : Nat) : Nat :=
  log2Fuel n n

/-- `⌊log2 (n / d)⌋` for positive `n`, `d`. -/
def floorLog2 (n d : Nat) : Int :=
  let t : Int := (natLog2 n : Int) - (natLog2 d : Int)
  if 0 ≤ t then
    if d * 2 ^ t.toNat ≤ n then t else t - 1
  else
    if d ≤ n * 2 ^ (-t).toNat then t else t - 1

/-- The exact value of a binary64 float: the dyadic rational `m · 2^e`. -/
structure Dyadic where
  m : Nat
  e : Int
deriving DecidableEq, Repr

/-- The binary64 float nearest to `n / d`: scale the quotient so that its
rounded significand has 53 bits, rounding ties to even (exponent range
unbounded — no overflow/underflow, see the section comment). -/
def float64OfRat (n d : Nat) : Dyadic :=
  if n = 0 ∨ d = 0 then ⟨0, 0⟩
  else
    let e := floorLog2 n d - 52
    let m :=
      if 0 ≤ e then roundHalfEven n (d * 2 ^ e.toNat)
      else roundHalfEven (n * 2 ^ (-e).toNat) d
    ⟨m, e⟩

/-- Binary64 product of a float and a natural number: round the exact
product `(m·k) · 2^e` back to 53 significant bits. -/
def float64MulNat (x : Dyadic) (k : Nat) : Dyadic :=
  let r := float64OfRat (x.m * k) 1
  ⟨r.m, r.e + x.e⟩

/-- Python `int()` on a nonnegative float: truncation toward zero. -/
def truncToNat (x : Dyadic) : Nat :=
  if 0 ≤ x.e then x.m * 2 ^ x.e.toNat else x.m / 2 ^ (-x.e).toNat

/-- The progress value reported for item `idx` (0-based):
`int(((idx + 1) / total) * 100)` evaluated in binary64 as CPython does
— divide, multiply by 100, truncate — then clamped by
`update_job_status`.  This can differ from `⌊(idx+1)·100/total⌋`: at
`total = 50`, `idx = 28` the division rounds to just below `0.58` and the
result is 57, not 58. -/
def batchProgress (total idx : Nat) : Nat :=
  min 100 (max 0 (truncToNat (float64MulNat (float64OfRat (idx + 1) total) 100)))

/-- Observable outcome of a batch run: every progress value reported to
`update_job_status` in order, and the `processed` / `failed` item lists. -/
structure BatchState (R : Type) where
  progressUpdates : List Nat
  processed : List (String × R)
  failed : List (String × String)
deriving Repr

/-- The `for idx, file_id in enumerate(file_ids)` loop of
`process_batch_files`: report progress `int(((idx + 1) / total) * 100)`
(clamped as `update_job_status` does), then attempt the item inside its
own try/except; a failing item is appended to `failed_files` and the
loop continues. -/
def batchRun {R : Type} (total : Nat) (operation : String) :
    Nat → BatchState R → List (String × Except String R) → BatchState R
  | _, st, [] => st
  | idx, st, item :: rest =>
    let p := batchProgress total idx
    let st1 : BatchState R := { st with progressUpdates := st.progressUpdates ++ [p] }
    let st2 : BatchState R :=
      if operation = "analyze" then
        match item.2 with
        | Except.ok r => { st1 with processed := st1.processed ++ [(item.1, r)] }
        | Except.error e => { st1 with failed := st1.failed ++ [(item.1, e)] }
      else { st1 with failed := st1.failed ++ [(item.1, "Unknown operation")] }
    batchRun total operation (idx + 1) st2 rest

/-- `JobProcessor.process_batch_files`. -/
def process_batch_files {R : Type} (operation : String)
    (items : List (String × Except String R)) : BatchState R :=
  batchRun items.length operation 0 ⟨[], [], []⟩ items

/-! ### `FlatFileParser` (parsers/flat_file_parser.py)

File IO (encoding detection, reading the lines) is not modelled; the
parse core operates on the list of lines already read and stripped of
their trailing newlines, exactly as `parse` does after `readlines`. -/

/-- Python slice `s[a:b]` for non-negative bounds. -/
def pySlice (s : String) (a b : Nat) : String :=
  ⟨(s.data.drop a).take (b - a)⟩

/-- Python `str.strip()`. -/
def pyStrip (s : String) : String :=
  ⟨stripPyWs s.data⟩

/-- `FieldDefinition` (flat_file_parser.py lines 10–21); `end` is a Lean
keyword, so the exclusive end position is called `end_`. -/
structure FieldDefinition where
  name : String
  start : Nat
  end_ : Nat
  data_type : String
deriving DecidableEq, Repr

/-- `FieldDefinition.extract`: `line[self.start:self.end].strip()`. -/
def FieldDefinition.extract (f : FieldDefinition) (line : String) : String :=
  pyStrip (pySlice line f.start f.end_)

/-- `i < len(line) and line[i:i+2] == '  '`. -/
def hasDoubleSpaceAt (line : String) (i : Nat) : Bool :=
  decide (i < line.length) && decide ((line.data.drop i).take 2 = [' ', ' '])

/-- The `potential_breaks` list of `auto_detect_layout`: the positions
`i` in `range(len(header_line) - 1)` at which the first five sample lines
all carry a double space. -/
def potentialBreaks (sample_lines : List String) (header_line : String) : List Nat :=
  (List.range (header_line.length - 1)).filter
    (fun i => (sample_lines.take 5).all (fun line => hasDoubleSpaceAt line i))

/-- The "remove consecutive breaks" filter: keep `potential_breaks[i]`
when `i == 0` or it exceeds `potential_breaks[i-1] + 2` (the comparison
is against the previous element of the original list, kept or not). -/
def dedupeBreaksGo (prev : Nat) : List Nat → List Nat
  | [] => []
  | y :: rest =>
    if prev + 2 < y then y :: dedupeBreaksGo y rest else dedupeBreaksGo y rest

/-- The filtered break list (first element always kept). -/
def dedupeBreaks : List Nat → List Nat
  | [] => []
  | x :: rest => x :: dedupeBreaksGo x rest

/-- Build one `FieldDefinition` per consecutive pair of breaks, naming it
from the header slice (or `field_{i+1}` when that strips to empty). -/
def mkFields (header_line : String) : Nat → List Nat → List FieldDefinition
  | _, [] => []
  | _, [_] => []
  | i, a :: b :: rest =>
    let nm := pyStrip (pySlice header_line a b)
    let field_name := if nm = "" then "field_" ++ toString (i + 1) else nm
    ⟨field_name, a, b, "string"⟩ :: mkFields header_line (i + 1) (b :: rest)

/-- `FlatFileParser.auto_detect_layout` (flat_file_parser.py lines
46–91): returns `[]` for fewer than two sample lines; otherwise the
break list is `[0] ++ filtered ++ [len(header_line)]` and one field is
built per consecutive pair. -/
def auto_detect_layout (sample_lines : List String) : List FieldDefinition :=
  if sample_lines.length < 2 then []
  else
    match sample_lines with
    | [] => []
    | header_line :: _ =>
      let pbs := potentialBreaks sample_lines header_line
      let breaks := [0] ++ dedupeBreaks pbs ++ [header_line.length]
      mkFields header_line 0 breaks

/-- The headers and data rows `FlatFileParser.parse` produces. -/
structure FlatParseResult where
  headers : List String
  data : List Row
deriving DecidableEq, Repr

/-- The parse core of `FlatFileParser.parse` (flat_file_parser.py lines
111–134) on the lines read from the file: fall back to
`auto_detect_layout` when no layout was provided, raise the
layout-undetectable `ValueError` when the layout is still empty, and
otherwise extract one row per non-blank line. -/
def flatParse (lines : List String) (layout : List FieldDefinition)
    (skip_header : Bool) : Except String FlatParseResult :=
  let layout1 := if layout.isEmpty then auto_detect_layout lines else layout
  if layout1.isEmpty then
    Except.error "Could not detect field layout. Please provide layout definition."
  else
    let headers := layout1.map (fun f => f.name)
    let start_line := if skip_header then 1 else 0
    let data := (lines.drop start_line).filterMap (fun line =>
      if pyStrip line = "" then Option.none
      else
        some (layout1.foldl
          (fun row f => dictInsert row f.name (PyValue.str (f.extract line))) []))
    Except.ok ⟨headers, data⟩

/-! ### `ParserFactory` (parsers/factory.py)

Parser classes are identified by their class names; file IO is abstracted
by passing the lowered path suffix, the first file bytes and the decoded
1024-byte text sample as arguments. -/

/-- `ParserFactory.PARSER_MAP` (factory.py lines 19–27). -/
def PARSER_MAP : List (String × String) :=
  [("csv", "CSVParser"), ("xls", "ExcelParser"), ("xlsx", "ExcelParser"),
   ("txt", "TXTParser"), ("tsv", "PipeDelimitedParser"), ("dat", "FlatFileParser"),
   ("fixed", "FlatFileParser")]

/-- `PARSER_MAP.get(extension)`. -/
def parserMapGet (extension : String) : Option String :=
  (PARSER_MAP.find? (fun kv => kv.1 == extension)).map (fun kv => kv.2)

/-- `ParserFactory.create_parser` (factory.py lines 29–58): the extension
is the lowered `file_type` override when given, else the lowered path
suffix; an extension absent from `PARSER_MAP` raises the
unsupported-file-type `ValueError`. -/
def createParser (path_suffix : String) (file_type : Option String) :
    Except String String :=
  let extension :=
    match file_type with
    | some t => pyLower t
    | none => pyLower path_suffix
  match parserMapGet extension with
  | some parser_class => Except.ok parser_class
  | none => Except.error ("Unsupported file type: " ++ extension)

/-- `ParserFactory.detect_file_type` (factory.py lines 66–110) on the
lowered path suffix, the leading file bytes and the decoded text sample:
known extension first, then Excel signatures, then delimiter counting
(`csv` when commas dominate tabs, else `tsv`, else `pipe`). -/
def detect_file_type (path_suffix : String) (header_bytes : List Nat)
    (sample : String) : Option String :=
  let extension := pyLower path_suffix
  if (parserMapGet extension).isSome then some extension
  else if header_bytes.take 4 = [0xD0, 0xCF, 0x11, 0xE0] then some "xls"
  else if header_bytes.take 4 = [0x50, 0x4B, 0x03, 0x04] then some "xlsx"
  else if ',' ∈ sample.data ∧ sample.data.count '\t' < sample.data.count ',' then
    some "csv"
  else if '\t' ∈ sample.data then some "tsv"
  else if '|' ∈ sample.data then some "pipe"
  else Option.none

/-! ### `FixedWidthOutputGenerator.generate` (transformers/output_generators.py
lines 106–145)

The writes to the output file are modelled as the list of lines written
(without the `'\n'` terminators). -/

/-- Python `str.ljust(width)`: pad on the right with spaces up to
`width`; longer strings are returned unchanged. -/
def pyLjust (s : String) (width : Nat) : String :=
  ⟨s.data ++ List.replicate (width - s.data.length) ' '⟩

/-- Python slice `s[:width]`. -/
def pySliceTo (s : String) (width : Nat) : String :=
  ⟨s.data.take width⟩

/-- Python `str(value)` on a row value. -/
def pyStr : PyValue → String
  | PyValue.none => "None"
  | PyValue.str s => s
  | PyValue.intV n => toString n
  | PyValue.boolV b => if b then "True" else "False"

/-- `self.column_widths.get(header, 20)`. -/
def widthOf (column_widths : List (String × Nat)) (header : String) : Nat :=
  match (column_widths.find? (fun kv => kv.1 == header)).map (fun kv => kv.2) with
  | some w => w
  | none => 20

/-- `row.get(header, '')`. -/
def rowGetDefEmpty (row : Row) (k : String) : PyValue :=
  (rowLookup row k).getD (PyValue.str "")

/-- One data line: for each header, `str(row.get(header, ''))` is
left-justified to the column width and then truncated to it. -/
def fixedDataLine (column_widths : List (String × Nat)) (headers : List String)
    (row : Row) : String :=
  headers.foldl
    (fun line header =>
      let width := widthOf column_widths header
      let value := pyStr (rowGetDefEmpty row header)
      line ++ pySliceTo (pyLjust value width) width)
    ""

/-- The header line: each header left-justified to its width (and, unlike
data values, not truncated). -/
def fixedHeaderLine (column_widths : List (String × Nat)) (headers : List String) :
    String :=
  headers.foldl
    (fun line header => line ++ pyLjust header (widthOf column_widths header)) ""

/-- `FixedWidthOutputGenerator.generate`: the lines written to the output
file, header line first. -/
def fixedWidthGenerate (column_widths : List (String × Nat)) (headers : List String)
    (data : List Row) : List String :=
  fixedHeaderLine column_widths headers :: data.map (fixedDataLine column_widths headers)

/-! ## Theorems -/

/-- Closed form of the `transform_data` loop: successes in input order,
one error entry per failing row, indexed from `idx`. -/
theorem transformDataGo_eq (rules : List TransformationRule) (idx : Nat)
    (data : List Row) :
    transformDataGo rules idx data =
      (data.filterMap (fun r => (transform_row rules r).toOption),
       (data.enumFrom idx).filterMap (fun p =>
         match transform_row rules p.2 with
         | Except.error e => some ⟨p.1, e, p.2⟩
         | Except.ok _ => Option.none)) := by
  induction data generalizing idx with
  | nil => rfl
  | cons row rest ih =>
    simp only [transformDataGo, ih, List.enumFrom, List.filterMap_cons]
    cases h : transform_row rules row with
    | ok t => simp [h, Except.toOption]
    | error e => simp [h, Except.toOption]

/-- C1: `transform_data` never lets an exception escape — it returns a
plain pair.  The transformed list keeps exactly the non-failing rows in
input order, and the recorded validation errors are exactly one entry
(row index, error text, original row) per failing row, in order.  In
particular, on ten concrete rows where only index 4 raises, it returns 9
rows and the single error entry references row index 4. -/
theorem transform_data_row_isolation :
    (∀ (rules : List TransformationRule) (data : List Row),
      (transform_data rules data).1 =
        data.filterMap (fun r => (transform_row rules r).toOption) ∧
      (transform_data rules data).2 =
        data.enum.filterMap (fun p =>
          match transform_row rules p.2 with
          | Except.error e => some ⟨p.1, e, p.2⟩
          | Except.ok _ => Option.none)) ∧
    tenRows.length = 10 ∧
    (transform_data [failRule] tenRows).1.length = 9 ∧
    (transform_data [failRule] tenRows).2 =
      [⟨4, "boom", [("c", PyValue.str "boom")]⟩] := by
  refine ⟨fun rules data => ?_, by decide, by decide, by decide⟩
  have h := transformDataGo_eq rules 0 data
  exact ⟨by rw [transform_data, h], by rw [transform_data, h]; rfl⟩

/-- Dict assignment then lookup: the inserted key reads back the new
value, any other key is untouched. -/
theorem rowLookup_dictInsert (d : Row) (k k2 : String) (v : PyValue) :
    rowLookup (dictInsert d k v) k2 = if k = k2 then some v else rowLookup d k2 := by
  induction d with
  | nil => simp [dictInsert, rowLookup]
  | cons kv rest ih =>
    obtain ⟨k0, v0⟩ := kv
    by_cases h0 : k0 = k
    · subst h0
      by_cases h2 : k0 = k2 <;> simp [dictInsert, rowLookup, h2]
    · by_cases h2 : k0 = k2
      · subst h2
        have : ¬k = k0 := fun h => h0 h.symm
        simp [dictInsert, rowLookup, h0, this]
      · simp [dictInsert, rowLookup, h0, h2, ih]

/-- On a successful `transform_row` run every configured rule's `apply`
succeeded (the loop short-circuits at the first raised error). -/
theorem applyRules_ok_each (row : Row) :
    ∀ (rules : List TransformationRule) (acc out : Row),
      applyRules row rules acc = Except.ok out →
      ∀ r ∈ rules, ∃ v, r.apply (rowGet row r.source_column) = Except.ok v := by
  intro rules
  induction rules with
  | nil => intro acc out _ r hr; exact absurd hr (List.not_mem_nil r)
  | cons r0 rs ih =>
    intro acc out h r hr
    rw [applyRules] at h
    cases happ : r0.apply (rowGet row r0.source_column) with
    | error e => rw [happ] at h; exact absurd h (by simp)
    | ok v =>
      rw [happ] at h
      rcases List.mem_cons.mp hr with rfl | hr2
      · exact ⟨v, happ⟩
      · exact ih _ out h r hr2

/-- Invariant of the `transform_row` loop: a key of the output dict holds
the value written by the last configured rule targeting it, and keys no
rule targets keep their accumulator value. -/
theorem applyRules_lookup (row : Row) :
    ∀ (rules : List TransformationRule) (acc out : Row),
      applyRules row rules acc = Except.ok out → ∀ k,
      rowLookup out k =
        (match lastRuleFor rules k with
         | some r => (r.apply (rowGet row r.source_column)).toOption
         | none => rowLookup acc k) := by
  intro rules
  induction rules with
  | nil =>
    intro acc out h k
    rw [applyRules] at h
    cases h
    simp [lastRuleFor]
  | cons r0 rs ih =>
    intro acc out h k
    rw [applyRules] at h
    cases happ : r0.apply (rowGet row r0.source_column) with
    | error e => rw [happ] at h; exact absurd h (by simp)
    | ok v =>
      rw [happ] at h
      have ihk := ih _ out h k
      by_cases ht : r0.target_column = k
      · cases hrs : (rs.filter (fun r => decide (r.target_column = k))).getLast? with
        | none =>
          rw [lastRuleFor, List.filter_cons, if_pos (by simpa using ht)]
          have hnil : rs.filter (fun r => decide (r.target_column = k)) = [] := by
            cases hx : rs.filter (fun r => decide (r.target_column = k)) with
            | nil => rfl
            | cons a l => rw [hx] at hrs; simp [List.getLast?] at hrs
          rw [hnil]
          simp only [List.getLast?_singleton]
          rw [ihk, lastRuleFor, hrs, rowLookup_dictInsert, if_pos ht, happ]
          rfl
        | some r2 =>
          rw [lastRuleFor, List.filter_cons, if_pos (by simpa using ht)]
          have hne : rs.filter (fun r => decide (r.target_column = k)) ≠ [] := by
            intro hx; rw [hx] at hrs; simp [List.getLast?] at hrs
          obtain ⟨a, l, hal⟩ := List.exists_cons_of_ne_nil hne
          rw [hal, List.getLast?_cons_cons, ← hal, hrs]
          rw [ihk, lastRuleFor, hrs]
      · rw [lastRuleFor, List.filter_cons, if_neg (by simpa using ht), ← lastRuleFor]
        rw [ihk]
        cases hrs : lastRuleFor rs k with
        | some r2 => rfl
        | none => simp only [rowLookup_dictInsert, if_neg ht]

/-- C8: for every input row, a successful `transform_row` returns a dict
whose key set is exactly the set of configured `target_column` names
(source columns with no rule are dropped), and when several rules share a
target the value stored is the one written by the last such rule in
configuration order. -/
theorem transform_row_targets (rules : List TransformationRule) (row out : Row)
    (h : transform_row rules row = Except.ok out) :
    (∀ k, (rowLookup out k).isSome ↔ ∃ r ∈ rules, r.target_column = k) ∧
    (∀ k r, lastRuleFor rules k = some r →
      rowLookup out k = (r.apply (rowGet row r.source_column)).toOption) := by
  rw [transform_row] at h
  have hlk := applyRules_lookup row rules [] out h
  constructor
  · intro k
    rw [hlk]
    cases hlast : lastRuleFor rules k with
    | none =>
      simp only [rowLookup, Option.isSome_none, Bool.false_eq_true, false_iff]
      rintro ⟨r, hr, hrt⟩
      have : rules.filter (fun r => decide (r.target_column = k)) ≠ [] := by
        intro hx
        have : r ∈ rules.filter (fun r => decide (r.target_column = k)) :=
          List.mem_filter.mpr ⟨hr, by simpa using hrt⟩
        rw [hx] at this
        exact absurd this (List.not_mem_nil r)
      rw [lastRuleFor] at hlast
      exact this (List.getLast?_eq_none_iff.mp hlast)
    | some r =>
      have hmem : r ∈ rules.filter (fun r => decide (r.target_column = k)) := by
        rw [lastRuleFor] at hlast
        obtain ⟨hne, heq⟩ := List.mem_getLast?_eq_getLast (Option.mem_def.mpr hlast)
        rw [heq]
        exact List.getLast_mem hne
      have hr : r ∈ rules := (List.mem_filter.mp hmem).1
      have hrt : r.target_column = k := by
        have := (List.mem_filter.mp hmem).2
        simpa using this
      obtain ⟨v, hv⟩ := applyRules_ok_each row rules [] out h r hr
      show ((r.apply (rowGet row r.source_column)).toOption).isSome = true ↔ _
      rw [hv]
      simp only [Except.toOption, Option.isSome_some, true_iff]
      exact ⟨r, hr, hrt⟩
  · intro k r hr
    rw [hlk, hr]

/-- Witness for C8 at a concrete run: two rules share target `t`; the
output holds the value the second (last) rule produced. -/
theorem transform_row_targets_witness :
    rowLookup [("t", PyValue.str "y")] "t" =
      (c8RuleB.apply (rowGet c8Row "b")).toOption :=
  (transform_row_targets [c8RuleA, c8RuleB] c8Row [("t", PyValue.str "y")] rfl).2
    "t" c8RuleB rfl

/-- C3: cancelling a job whose background task is registered but never
began executing moves it straight from `pending` to `cancelled` — the
status trace never contains `processing`; and `cancel_job` on any job
whose task already finished (an already-`completed` job: its handle is
done or was already cleaned from `_active_tasks`) is a no-op returning
the `False` "not running" signal, leaving the stored status unchanged. -/
theorem cancel_job_state_machine :
    (create_job.job.status = "pending" ∧
     (cancel_job (start_background_task create_job)).2 = true ∧
     (cancel_job (start_background_task create_job)).1.job.status = "cancelled" ∧
     "processing" ∉ (cancel_job (start_background_task create_job)).1.history) ∧
    (∀ st : ManagerState, st.job.status = "completed" →
      (st.task = Option.none ∨ ∃ t, st.task = some t ∧ t.done = true) →
      cancel_job st = (st, false)) := by
  refine ⟨by decide, fun st hdone htask => ?_⟩
  rcases htask with hnone | ⟨t, hsome, ht⟩
  · rw [cancel_job, hnone]
  · rw [cancel_job, hsome]
    simp [ht]

/-- Witness for C3's no-op part at a concrete completed job. -/
theorem cancel_job_state_machine_witness :
    cancel_job ⟨⟨"completed", 100, Option.none, some "f"⟩, Option.none,
        ["pending", "processing", "completed"]⟩ =
      (⟨⟨"completed", 100, Option.none, some "f"⟩, Option.none,
        ["pending", "processing", "completed"]⟩, false) :=
  cancel_job_state_machine.2 _ rfl (Or.inl rfl)

/-- Counterexample to C4 as stated: a body that raises an exception whose
`str(e)` is empty (`raise Exception("")`) does move the job to `failed`,
but `update_job_status` guards the write with Python's `if error_message:`
— the falsy empty string is not recorded, so no error message is stored. -/
theorem execute_task_empty_error_not_recorded :
    (execute_task ⟨"pending", 0, Option.none, Option.none⟩
        (fun s => (s, Except.error ""))).1.status = "failed" ∧
    (execute_task ⟨"pending", 0, Option.none, Option.none⟩
        (fun s => (s, Except.error ""))).1.error_message = Option.none ∧
    (Option.none : Option String) ≠ some "" := by
  refine ⟨rfl, rfl, by decide⟩

/-- C4 (amended): a body returning normally drives the job to `completed`
with progress 100 and the result is passed through; a body that raises is
caught exactly once at the `execute_task` boundary, the job is moved to
`failed`, the stored progress is left at the value the body last
reported, the error message is recorded when it is non-empty (an empty
`str(e)` is falsy and leaves `error_message` unchanged), and the
exception is re-raised rather than swallowed. -/
theorem execute_task_outcomes (st : JobState)
    (body : JobState → JobState × Except String (Option String)) :
    (∀ st2 rf,
      body (update_job_status st "processing" (some 0) Option.none Option.none) =
          (st2, Except.ok rf) →
      (execute_task st body).1.status = "completed" ∧
      (execute_task st body).1.progress = 100 ∧
      (execute_task st body).2 = Except.ok rf) ∧
    (∀ st2 e,
      body (update_job_status st "processing" (some 0) Option.none Option.none) =
          (st2, Except.error e) →
      (execute_task st body).1.status = "failed" ∧
      (execute_task st body).1.progress = st2.progress ∧
      (execute_task st body).1.error_message =
        (if e = "" then st2.error_message else some e) ∧
      (execute_task st body).2 = Except.error e) := by
  constructor
  · intro st2 rf hbody
    rw [execute_task, hbody]
    refine ⟨rfl, ?_, rfl⟩
    simp [update_job_status]
  · intro st2 e hbody
    rw [execute_task, hbody]
    exact ⟨rfl, rfl, rfl, rfl⟩

/-- Witness for C4 (amended) with a body that raises a non-empty error:
the job fails, the message is recorded, the exception is re-raised. -/
theorem execute_task_outcomes_witness :
    (execute_task ⟨"pending", 0, Option.none, Option.none⟩
        (fun s => (s, Except.error "boom"))).1.status = "failed" ∧
    (execute_task ⟨"pending", 0, Option.none, Option.none⟩
        (fun s => (s, Except.error "boom"))).1.error_message = some "boom" ∧
    (execute_task ⟨"pending", 0, Option.none, Option.none⟩
        (fun s => (s, Except.error "boom"))).2 = Except.error "boom" := by
  have h := (execute_task_outcomes ⟨"pending", 0, Option.none, Option.none⟩
      (fun s => (s, Except.error "boom"))).2 _ "boom" rfl
  exact ⟨h.1, by simpa using h.2.2.1, h.2.2.2⟩

/-- Shifting a `List.range` map by one position. -/
theorem range_succ_shift {A : Type} (g : Nat → A) (idx m : Nat) :
    g idx :: (List.range m).map (fun i => g (idx + 1 + i)) =
      (List.range (m + 1)).map (fun i => g (idx + i)) := by
  rw [List.range_succ_eq_map, List.map_cons, List.map_map]
  congr 1
  apply List.map_congr_left
  intro i _
  show g (idx + 1 + i) = g (idx + (i + 1))
  congr 1
  omega

/-- Closed form of the batch loop under the `analyze` operation: each
item appends one (clamped) progress update, successes go to `processed`
and failures to `failed`, both in order. -/
theorem batchRun_analyze_eq {R : Type} (total : Nat) :
    ∀ (items : List (String × Except String R)) (idx : Nat) (st : BatchState R),
    batchRun total "analyze" idx st items =
      { progressUpdates := st.progressUpdates ++
          (List.range items.length).map (fun i => batchProgress total (idx + i)),
        processed := st.processed ++ items.filterMap (fun it =>
          match it.2 with
          | Except.ok r => some (it.1, r)
          | Except.error _ => Option.none),
        failed := st.failed ++ items.filterMap (fun it =>
          match it.2 with
          | Except.error e => some (it.1, e)
          | Except.ok _ => Option.none) } := by
  intro items
  induction items with
  | nil => intro idx st; simp [batchRun]
  | cons item rest ih =>
    intro idx st
    rw [batchRun]
    cases hit : item.2 with
    | ok r =>
      rw [if_pos rfl, ih]
      simp only [List.length_cons, List.filterMap_cons, hit]
      congr 1
      · rw [List.append_assoc, List.singleton_append,
          range_succ_shift (batchProgress total) idx rest.length]
      · rw [List.append_assoc, List.singleton_append]
    | error e =>
      rw [if_pos rfl, ih]
      simp only [List.length_cons, List.filterMap_cons, hit]
      congr 1
      · rw [List.append_assoc, List.singleton_append,
          range_succ_shift (batchProgress total) idx rest.length]
      · rw [List.append_assoc, List.singleton_append]

/-- Sum of the lengths of the two outcome partitions is the item count. -/
theorem batch_partition_length {R : Type} :
    ∀ items : List (String × Except String R),
    (items.filterMap (fun it =>
      match it.2 with
      | Except.ok r => some (it.1, r)
      | Except.error _ => Option.none)).length +
    (items.filterMap (fun it =>
      match it.2 with
      | Except.error e => some (it.1, e)
      | Except.ok _ => Option.none)).length = items.length := by
  intro items
  induction items with
  | nil => rfl
  | cons item rest ih =>
    cases hit : item.2 with
    | ok r => simp only [List.filterMap_cons, hit, List.length_cons]; omega
    | error e => simp only [List.filterMap_cons, hit, List.length_cons]; omega

/-- Counterexample to C5 as stated: in a 50-item batch, the progress
stored while handling the item at index 28 — 28 items completed, the
29th counted in advance — is `int(((28 + 1) / 50) * 100)`, which CPython
evaluates in binary64 to 57 because `29 / 50` rounds to just below
`0.58`; it equals neither `⌊29 · 100 / 50⌋ = 58` nor
`⌊28 · 100 / 50⌋ = 56`, so the reported progress is not
"(items completed) / (total items) × 100 rounded down" under either
counting. -/
theorem process_batch_files_float_counterexample :
    (process_batch_files "analyze"
        (List.replicate 50 ("f", (Except.ok "r" : Except String String)))).progressUpdates.get?
        28 = some 57 ∧
    29 * 100 / 50 = 58 ∧ 28 * 100 / 50 = 56 ∧ (57 : Nat) ≠ 58 ∧ (57 : Nat) ≠ 56 := by
  exact ⟨by decide, by decide, by decide, by decide, by decide⟩

/-- C5 (amended): over a non-empty batch, the progress reported while
handling item `idx` (0-based) is `int(((idx + 1) / total) * 100)`
evaluated in IEEE-754 binary64 arithmetic as CPython does (then clamped
by `update_job_status`) — usually, but not always, equal to
`⌊(idx + 1) · 100 / total⌋`; and the failure of any single item does not
stop processing: every item is attempted, successes land in `processed`,
each failure is recorded in the per-item `failed` list, and the two
outcome lists together cover all items. -/
theorem process_batch_files_outcomes {R : Type}
    (items : List (String × Except String R)) (h : items ≠ []) :
    (process_batch_files "analyze" items).progressUpdates =
      (List.range items.length).map (fun i => batchProgress items.length i) ∧
    (∀ k, 1 ≤ k → k ≤ items.length →
      (process_batch_files "analyze" items).progressUpdates.get? (k - 1) =
        some (batchProgress items.length (k - 1))) ∧
    (process_batch_files "analyze" items).processed =
      items.filterMap (fun it =>
        match it.2 with
        | Except.ok r => some (it.1, r)
        | Except.error _ => Option.none) ∧
    (process_batch_files "analyze" items).failed =
      items.filterMap (fun it =>
        match it.2 with
        | Except.error e => some (it.1, e)
        | Except.ok _ => Option.none) ∧
    (process_batch_files "analyze" items).processed.length +
      (process_batch_files "analyze" items).failed.length = items.length := by
  have heq := @batchRun_analyze_eq R items.length items 0 ⟨[], [], []⟩
  have hupd : (process_batch_files "analyze" items).progressUpdates =
      (List.range items.length).map (fun i => batchProgress items.length i) := by
    rw [process_batch_files, heq]
    simp only [List.nil_append]
    apply List.map_congr_left
    intro i hi
    show batchProgress items.length (0 + i) = batchProgress items.length i
    rw [Nat.zero_add]
  refine ⟨hupd, ?_, ?_, ?_, ?_⟩
  · intro k hk1 hk2
    rw [hupd, List.get?_map]
    have hrange : (List.range items.length).get? (k - 1) = some (k - 1) :=
      List.get?_range (by omega)
    rw [hrange]
    rfl
  · rw [process_batch_files, heq]
    rfl
  · rw [process_batch_files, heq]
    rfl
  · rw [process_batch_files, heq]
    show ([] ++ _).length + ([] ++ _).length = _
    simp only [List.nil_append]
    exact batch_partition_length items

/-- Witness for C5 (amended) on a concrete two-item batch (one failure):
progress updates are 50 then 100 (here the binary64 values are exact),
and the failure is recorded per item. -/
theorem process_batch_files_outcomes_witness :
    (process_batch_files "analyze"
        [("a", Except.ok "r"), ("b", Except.error "x")]).progressUpdates = [50, 100] ∧
    (process_batch_files "analyze"
        [("a", Except.ok "r"), ("b", Except.error "x")]).failed = [("b", "x")] := by
  have h := process_batch_files_outcomes
      [("a", Except.ok "r"), ("b", Except.error "x")] (by simp)
  refine ⟨?_, by simpa using h.2.2.2.1⟩
  rw [h.1]
  decide

/-- C7: the rule-based fallback on input columns
`["Customer_Name", "Email"]` and reference columns
`["customer_name", "Email_Address"]` yields exactly one mapping,
`Customer_Name → customer_name` at confidence 90 (case/underscore/space
insensitive), leaves `Email` in `unmapped_input_columns` and lists
`Email_Address` in `unmapped_reference_columns`. -/
theorem fallback_mapping_example :
    fallback_mapping ["Customer_Name", "Email"] ["customer_name", "Email_Address"] =
      ⟨[⟨"Customer_Name", "customer_name", 90, "Case-insensitive match", "rename"⟩],
       ["Email"], ["Email_Address"]⟩ := by
  decide

/-- C9: content-based detection can return `pipe` (a sample containing a
`|` but neither comma nor tab, under an unknown extension and no Excel
signature), yet `pipe` is not a key of `PARSER_MAP`, so `ParserFactory.create_parser`
invoked with the detected type raises the unsupported-file-type error
even though detection succeeded. -/
theorem detect_pipe_not_supported :
    detect_file_type "bin" [] "a|b" = some "pipe" ∧
    parserMapGet "pipe" = Option.none ∧
    createParser "bin" (some "pipe") =
      Except.error "Unsupported file type: pipe" :=
  ⟨rfl, rfl, rfl⟩

/-- One padded-and-truncated field is exactly the column width long. -/
theorem field_length (s : String) (w : Nat) :
    (pySliceTo (pyLjust s w) w).length = w := by
  show ((s.data ++ List.replicate (w - s.data.length) ' ').take w).length = w
  rw [List.length_take, List.length_append, List.length_replicate]
  omega

/-- A data line accumulates the widths of the columns over the fold. -/
theorem fixedDataLine_foldl_length (column_widths : List (String × Nat)) (row : Row) :
    ∀ (headers : List String) (line : String),
    (headers.foldl
      (fun line header =>
        line ++ pySliceTo (pyLjust (pyStr (rowGetDefEmpty row header))
          (widthOf column_widths header)) (widthOf column_widths header)) line).length =
      line.length + (headers.map (widthOf column_widths)).sum := by
  intro headers
  induction headers with
  | nil => intro line; simp
  | cons h t ih =>
    intro line
    rw [List.foldl_cons, ih, List.map_cons, List.sum_cons, String.length_append,
      field_length]
    omega

/-- C10: every data line written by the fixed-width generator has length
exactly the sum over the headers of that column's configured width (20
when unspecified): each value is left-justified and truncated to exactly
its column width, whatever its original length. -/
theorem fixed_width_data_line_length (column_widths : List (String × Nat))
    (headers : List String) (data : List Row) :
    ∀ line ∈ (fixedWidthGenerate column_widths headers data).tail,
      line.length = (headers.map (widthOf column_widths)).sum := by
  intro line hline
  rw [fixedWidthGenerate, List.tail_cons] at hline
  obtain ⟨row, _, rfl⟩ := List.mem_map.mp hline
  rw [fixedDataLine, fixedDataLine_foldl_length]
  simp

/-- Witness for C10: a concrete row with an over-long value in a width-3
column and a missing value in an unconfigured (width 20) column gives a
line of length 23. -/
theorem fixed_width_data_line_length_witness :
    (fixedDataLine [("a", 3)] ["a", "b"] [("a", PyValue.str "xxxxx")]).length =
      ((["a", "b"]).map (widthOf [("a", 3)])).sum :=
  fixed_width_data_line_length [("a", 3)] ["a", "b"] [[("a", PyValue.str "xxxxx")]]
    _ (by simp [fixedWidthGenerate])

/-- With at least one consecutive pair of breaks, `mkFields` builds at
least one field. -/
theorem mkFields_cons_ne_nil (header : String) (i a b : Nat) (rest : List Nat) :
    mkFields header i (a :: b :: rest) ≠ [] := by
  simp [mkFields]

/-- Auto-detection on two or more lines always yields at least one field:
the break list always contains position 0 and the header length, so even
when no interior boundary is found a single full-width field is built. -/
theorem auto_detect_layout_ne_nil (lines : List String) (h : 2 ≤ lines.length) :
    auto_detect_layout lines ≠ [] := by
  cases lines with
  | nil => simp at h
  | cons header t =>
    have hlen : ¬((header :: t).length < 2) := by
      simp only [List.length_cons] at h ⊢
      omega
    rw [auto_detect_layout.eq_def, if_neg hlen]
    cases hd : dedupeBreaks (potentialBreaks (header :: t) header) with
    | nil => simpa [hd] using mkFields_cons_ne_nil header 0 0 header.length []
    | cons x xs =>
      simpa [hd] using mkFields_cons_ne_nil header 0 0 x (xs ++ [header.length])

/-- Counterexample to C6 as stated: on the two lines `"ab"` / `"cd"` with
no explicit layout, auto-detection finds no column boundary
(`potential_breaks` is empty), yet `parse` does not fail — the break list
still contains 0 and the line length, producing one full-width field and
a parsed table. -/
theorem flatParse_no_boundaries_counterexample :
    potentialBreaks ["ab", "cd"] "ab" = [] ∧
    flatParse ["ab", "cd"] [] false =
      Except.ok ⟨["ab"], [[("ab", PyValue.str "ab")], [("ab", PyValue.str "cd")]]⟩ :=
  ⟨by decide, rfl⟩

/-- C6 (amended): with no explicit layout, `parse` fails with the
layout-undetectable error exactly when the file has fewer than two lines
(the only case in which `auto_detect_layout` returns no fields); finding
no interior column boundaries does not by itself make `parse` fail. -/
theorem flatParse_error_iff (lines : List String) (skip_header : Bool) :
    flatParse lines [] skip_header =
        Except.error "Could not detect field layout. Please provide layout definition." ↔
      lines.length < 2 := by
  constructor
  · intro h
    by_contra hlen
    have hne := auto_detect_layout_ne_nil lines (by omega)
    cases hlay : auto_detect_layout lines with
    | nil => exact hne hlay
    | cons f fs => simp [flatParse, hlay] at h
  · intro hlen
    have hnil : auto_detect_layout lines = [] := by
      rw [auto_detect_layout.eq_def, if_pos hlen]
    simp [flatParse, hnil]

/-- Witness for C6 (amended) at the empty input. -/
theorem flatParse_error_iff_witness :
    flatParse [] [] false =
      Except.error "Could not detect field layout. Please provide layout definition." :=
  (flatParse_error_iff [] false).mpr (by decide)

/-! ### Lemmas about the `infer_data_type` model (for C2) -/

/-- A digit differs from any non-digit character. -/
theorem isDigit_ne (c a : Char) (h : c.isDigit = true) (ha : a.isDigit = false) :
    c ≠ a := by
  intro hc
  rw [hc, ha] at h
  cases h

/-- Digits are not Python whitespace. -/
theorem isDigit_not_ws (c : Char) (h : c.isDigit = true) : isPyWs c = false := by
  rw [isPyWs]
  simp only [Bool.or_eq_false_iff, decide_eq_false_iff_not]
  refine ⟨⟨⟨⟨⟨?_, ?_⟩, ?_⟩, ?_⟩, ?_⟩, ?_⟩ <;>
    (intro hc; subst hc; exact absurd h (by decide))

/-- Lowercasing preserves digits (`'A'..'Z'` excludes digits). -/
theorem pyToLower_digit (c : Char) (h : c.isDigit = true) :
    (pyToLower c).isDigit = true := by
  rw [pyToLower]
  split_ifs with hAZ
  · exfalso
    rw [Char.isDigit] at h
    simp only [Bool.and_eq_true, decide_eq_true_eq] at h
    have h1 : ('A' : Char).val ≤ c.val := Char.le_def.mp hAZ.1
    have h3 : ('A' : Char).val ≤ 57 := UInt32.le_trans h1 h.2
    exact absurd h3 (by decide)
  · exact h

/-- `dropWhile` keeps every element the predicate rejects. -/
theorem mem_dropWhile_of_not (p : Char → Bool) (c : Char) :
    ∀ cs : List Char, c ∈ cs → p c = false → c ∈ cs.dropWhile p := by
  intro cs
  induction cs with
  | nil => intro h _; exact absurd h (List.not_mem_nil c)
  | cons a t ih =>
    intro hmem hp
    rw [List.dropWhile_cons]
    split_ifs with hpa
    · rcases List.mem_cons.mp hmem with rfl | ht
      · rw [hpa] at hp; cases hp
      · exact ih ht hp
    · exact hmem

/-- Stripping removes only whitespace: non-whitespace characters survive. -/
theorem mem_stripPyWs (c : Char) (cs : List Char) (hmem : c ∈ cs)
    (hc : isPyWs c = false) : c ∈ stripPyWs cs := by
  rw [stripPyWs, dropTrailWs]
  rw [List.mem_reverse]
  apply mem_dropWhile_of_not _ _ _ _ hc
  rw [List.mem_reverse]
  exact mem_dropWhile_of_not _ _ _ hmem hc

/-- Dropping trailing whitespace is the identity when the last character
is not whitespace. -/
theorem dropTrailWs_eq_self (cs : List Char) (d : Char)
    (hlast : cs.getLast? = some d) (hd : isPyWs d = false) :
    dropTrailWs cs = cs := by
  rw [dropTrailWs]
  cases hrev : cs.reverse with
  | nil =>
    rw [List.reverse_eq_nil_iff] at hrev
    subst hrev
    rfl
  | cons a t =>
    have ha : a = d := by
      have := List.head?_reverse cs
      rw [hrev, hlast] at this
      exact Option.some.inj this
    subst ha
    rw [List.dropWhile_cons, if_neg (by simp [hd])]
    rw [← hrev, List.reverse_reverse]

/-- Stripping is the identity when both ends are non-whitespace. -/
theorem stripPyWs_eq_self (c : Char) (t : List Char) (d : Char)
    (hc : isPyWs c = false) (hlast : (c :: t).getLast? = some d)
    (hd : isPyWs d = false) : stripPyWs (c :: t) = c :: t := by
  rw [stripPyWs, List.dropWhile_cons, if_neg (by simp [hc])]
  exact dropTrailWs_eq_self _ _ hlast hd

/-- Unfolding of `digitsURest` at a non-underscore head. -/
theorem digitsURest_cons_ne (c : Char) (l : List Char) (h : ¬c = '_') :
    digitsURest (c :: l) = (c.isDigit && digitsURest l) := by
  rw [digitsURest.eq_def]
  simp [h]

/-- Unfolding of `chompRest` at a digit head. -/
theorem chompRest_cons_digit (c : Char) (l : List Char) (h : c.isDigit = true) :
    chompRest (c :: l) = chompRest l := by
  conv_lhs => rw [chompRest.eq_def]
  simp [h]

/-- A digit run followed by a date separator is not a valid `int` digit
tail: the scan reaches the separator, which is neither digit nor a
well-placed underscore. -/
theorem digitsURest_sep_false :
    ∀ (p : List Char), p.all Char.isDigit = true →
    ∀ (σ : Char) (r : List Char), isSepChar σ = true →
    digitsURest (p ++ σ :: r) = false := by
  intro p
  induction p with
  | nil =>
    intro _ σ r hσ
    rw [isSepChar] at hσ
    simp only [Bool.or_eq_true, decide_eq_true_eq] at hσ
    rcases hσ with rfl | rfl <;>
      (rw [List.nil_append, digitsURest_cons_ne _ _ (by decide)]; simp)
  | cons c p2 ih =>
    intro hall σ r hσ
    rw [List.all_cons, Bool.and_eq_true] at hall
    have hne : c ≠ '_' := isDigit_ne c '_' hall.1 (by decide)
    rw [List.cons_append, digitsURest_cons_ne _ _ hne, ih hall.2 σ r hσ,
      Bool.and_false]

/-- Likewise for the full digit run of an `int` literal. -/
theorem digitsU_sep_false (p : List Char) (hall : p.all Char.isDigit = true)
    (σ : Char) (r : List Char) (hσ : isSepChar σ = true) :
    digitsU (p ++ σ :: r) = false := by
  cases p with
  | nil =>
    rw [isSepChar] at hσ
    simp only [Bool.or_eq_true, decide_eq_true_eq] at hσ
    rcases hσ with rfl | rfl <;> simp [digitsU]
  | cons c p2 =>
    rw [List.all_cons, Bool.and_eq_true] at hall
    rw [List.cons_append, digitsU, digitsURest_sep_false p2 hall.2 σ r hσ,
      Bool.and_false]

/-- After a date separator, no continuation of a float's integer digit
run is possible. -/
theorem pyAfterIntDigits_sep_false (σ : Char) (r : List Char)
    (hσ : isSepChar σ = true) : pyAfterIntDigits (σ :: r) = false := by
  rw [isSepChar] at hσ
  simp only [Bool.or_eq_true, decide_eq_true_eq] at hσ
  rcases hσ with rfl | rfl <;> simp [pyAfterIntDigits]

/-- The greedy digit-run scanner stops exactly at a date separator. -/
theorem chompRest_digits_sep :
    ∀ (p : List Char), p.all Char.isDigit = true →
    ∀ (σ : Char) (r : List Char), isSepChar σ = true →
    chompRest (p ++ σ :: r) = σ :: r := by
  intro p
  induction p with
  | nil =>
    intro _ σ r hσ
    rw [isSepChar] at hσ
    simp only [Bool.or_eq_true, decide_eq_true_eq] at hσ
    rcases hσ with rfl | rfl <;>
      (rw [List.nil_append]; conv_lhs => rw [chompRest.eq_def]) <;> simp
  | cons c p2 ih =>
    intro hall σ r hσ
    rw [List.all_cons, Bool.and_eq_true] at hall
    rw [List.cons_append, chompRest_cons_digit _ _ hall.1]
    exact ih hall.2 σ r hσ

/-- A string starting with a digit is not an `inf`/`nan` spelling. -/
theorem pyInfNan_digit_false (c : Char) (t : List Char)
    (hc : c.isDigit = true) : pyInfNan (c :: t) = false := by
  have hlow := pyToLower_digit c hc
  rw [pyInfNan]
  simp only [List.map_cons, Bool.or_eq_false_iff, decide_eq_false_iff_not]
  refine ⟨⟨fun h => ?_, fun h => ?_⟩, fun h => ?_⟩
  all_goals
    have hh := List.head_eq_of_cons_eq h
    rw [hh] at hlow
    exact absurd hlow (by decide)

/-- Unfolding of `splitSeps` on a cons. -/
theorem splitSeps_cons (c : Char) (rest : List Char) :
    splitSeps (c :: rest) =
      (if isSepChar c then [] :: splitSeps rest
       else
         match splitSeps rest with
         | [] => [[c]]
         | p :: ps => (c :: p) :: ps) := by
  rw [splitSeps.eq_def]

/-- Splitting never produces an empty list of parts. -/
theorem splitSeps_ne_nil : ∀ cs : List Char, splitSeps cs ≠ [] := by
  intro cs
  induction cs with
  | nil => simp [splitSeps]
  | cons c rest ih =>
    rw [splitSeps_cons]
    split_ifs
    · simp
    · cases h : splitSeps rest with
      | nil => simp
      | cons p ps => simp

/-- `(a :: l).getLast? = l.getLast?` for nonempty `l`. -/
theorem getLast?_cons_of_ne_nil {A : Type} (a : A) (l : List A) (h : l ≠ []) :
    (a :: l).getLast? = l.getLast? := by
  cases l with
  | nil => exact absurd rfl h
  | cons b t => exact List.getLast?_cons_cons

/-- When splitting yields at least two parts, the input starts with the
first part followed by a separator. -/
theorem splitSeps_first_decomp :
    ∀ (cs p q : List Char) (ps : List (List Char)),
    splitSeps cs = p :: q :: ps →
    ∃ σ r, isSepChar σ = true ∧ cs = p ++ σ :: r := by
  intro cs
  induction cs with
  | nil =>
    intro p q ps h
    rw [splitSeps] at h
    exact absurd h (by simp)
  | cons c rest ih =>
    intro p q ps h
    rw [splitSeps_cons] at h
    by_cases hsep : isSepChar c = true
    · rw [if_pos hsep] at h
      obtain ⟨hp, _⟩ := List.cons.inj h
      exact ⟨c, rest, hsep, by rw [← hp, List.nil_append]⟩
    · rw [if_neg (by simp [hsep])] at h
      cases hsp : splitSeps rest with
      | nil => exact absurd hsp (splitSeps_ne_nil rest)
      | cons p0 ps0 =>
        rw [hsp] at h
        obtain ⟨hp, hps⟩ := List.cons.inj h
        obtain ⟨σ, r, hσ, hrest⟩ := ih p0 q ps (by rw [hsp, hps])
        exact ⟨σ, r, hσ, by rw [← hp, hrest, List.cons_append]⟩

/-- A single-part split means the input had no separators: the part is
the whole input. -/
theorem splitSeps_single : ∀ (cs p : List Char), splitSeps cs = [p] → cs = p := by
  intro cs
  induction cs with
  | nil =>
    intro p h
    rw [splitSeps] at h
    exact (List.cons.inj h).1
  | cons c rest ih =>
    intro p h
    rw [splitSeps_cons] at h
    by_cases hsep : isSepChar c = true
    · rw [if_pos hsep] at h
      exact absurd (List.cons.inj h).2 (splitSeps_ne_nil rest)
    · rw [if_neg (by simp [hsep])] at h
      cases hsp : splitSeps rest with
      | nil => exact absurd hsp (splitSeps_ne_nil rest)
      | cons p0 ps0 =>
        rw [hsp] at h
        obtain ⟨hp, hps⟩ := List.cons.inj h
        have : rest = p0 := ih p0 (by rw [hsp, hps])
        rw [← hp, this]

/-- The input ends with the last part of its split. -/
theorem splitSeps_last_suffix :
    ∀ (cs p : List Char), (splitSeps cs).getLast? = some p →
    ∃ pre, cs = pre ++ p := by
  intro cs
  induction cs with
  | nil =>
    intro p h
    rw [splitSeps] at h
    simp only [List.getLast?_singleton, Option.some.injEq] at h
    exact ⟨[], by rw [← h]; rfl⟩
  | cons c rest ih =>
    intro p h
    rw [splitSeps_cons] at h
    by_cases hsep : isSepChar c = true
    · rw [if_pos hsep,
        getLast?_cons_of_ne_nil _ _ (splitSeps_ne_nil rest)] at h
      obtain ⟨pre, hpre⟩ := ih p h
      exact ⟨c :: pre, by rw [hpre, List.cons_append]⟩
    · rw [if_neg (by simp [hsep])] at h
      cases hsp : splitSeps rest with
      | nil => exact absurd hsp (splitSeps_ne_nil rest)
      | cons p0 ps0 =>
        rw [hsp] at h
        cases ps0 with
        | nil =>
          simp only [List.getLast?_singleton, Option.some.injEq] at h
          have hrest : rest = p0 := splitSeps_single rest p0 hsp
          exact ⟨[], by rw [← h, hrest, List.nil_append]⟩
        | cons q t =>
          rw [getLast?_cons_of_ne_nil _ _ (by simp)] at h
          have h2 : (splitSeps rest).getLast? = some p := by
            rw [hsp, getLast?_cons_of_ne_nil _ _ (by simp)]
            exact h
          obtain ⟨pre, hpre⟩ := ih p h2
          exact ⟨c :: pre, by rw [hpre, List.cons_append]⟩

/-- A nonempty all-digit part ends in a digit. -/
theorem getLast?_all_digit (p : List Char) (hne : p ≠ [])
    (hall : p.all Char.isDigit = true) :
    ∃ d, p.getLast? = some d ∧ d.isDigit = true := by
  refine ⟨p.getLast hne, List.getLast?_eq_getLast_of_ne_nil hne, ?_⟩
  rw [List.all_eq_true] at hall
  exact hall _ (List.getLast_mem hne)

/-- An `int` literal starting with a digit has no sign to strip. -/
theorem pyIntStr_cons_digit (c : Char) (l : List Char) (hc : c.isDigit = true) :
    pyIntStr (c :: l) = digitsU (c :: l) := by
  rw [pyIntStr.eq_def]
  simp [isDigit_ne c '+' hc (by decide), isDigit_ne c '-' hc (by decide)]

/-- A `float` literal starting with a digit has no sign to strip. -/
theorem pyFloatStr_cons_digit (c : Char) (l : List Char) (hc : c.isDigit = true) :
    pyFloatStr (c :: l) = (pyInfNan (c :: l) || pyFloatNum (c :: l)) := by
  rw [pyFloatStr.eq_def]
  simp [isDigit_ne c '+' hc (by decide), isDigit_ne c '-' hc (by decide)]

/-- The numeric float scanner on a digit head: scan the integer digit run
and continue. -/
theorem pyFloatNum_cons_digit (c : Char) (l : List Char) (hc : c.isDigit = true) :
    pyFloatNum (c :: l) = (c.isDigit && pyAfterIntDigits (chompRest l)) := by
  rw [pyFloatNum.eq_def]
  simp [isDigit_ne c '.' hc (by decide)]

/-- Core of C2's ordering clause: a date-shaped string (all split parts
nonempty digit runs, at least two parts) is accepted by neither Python
`int` nor Python `float`.  Its first character is a digit (so no sign or
whitespace is stripped and no `inf`/`nan` spelling matches), and the scan
of its leading digit run stops at the first separator, which no numeric
literal may contain at that position. -/
theorem dateCheck_not_int_float (s : String) (h : dateCheck s = true) :
    pyIntable s = false ∧ pyFloatable s = false := by
  rw [dateCheck] at h
  simp only [Bool.and_eq_true, decide_eq_true_eq] at h
  obtain ⟨hany, hlen, hall⟩ := h
  rw [List.all_eq_true] at hall
  cases hsp : splitSeps s.data with
  | nil => rw [hsp] at hlen; simp at hlen
  | cons p l1 =>
    cases l1 with
    | nil => rw [hsp] at hlen; simp at hlen
    | cons q ps =>
      obtain ⟨σ, r, hσ, hcs⟩ := splitSeps_first_decomp s.data p q ps hsp
      have hpdig : pyStrIsdigit p = true := hall p (by rw [hsp]; exact List.mem_cons_self _ _)
      rw [pyStrIsdigit, Bool.and_eq_true] at hpdig
      have hpne : p ≠ [] := by
        intro hx
        rw [hx] at hpdig
        simp at hpdig
      obtain ⟨c, p2, rfl⟩ := List.exists_cons_of_ne_nil hpne
      have hcall : (c :: p2).all Char.isDigit = true := hpdig.2
      have hc : c.isDigit = true := by
        have h2 := hcall
        rw [List.all_cons, Bool.and_eq_true] at h2
        exact h2.1
      have hp2all : p2.all Char.isDigit = true := by
        have h2 := hcall
        rw [List.all_cons, Bool.and_eq_true] at h2
        exact h2.2
      have hplast : (splitSeps s.data).getLast? =
          some ((splitSeps s.data).getLast (by rw [hsp]; simp)) :=
        List.getLast?_eq_getLast_of_ne_nil _
      set plast := (splitSeps s.data).getLast (by rw [hsp]; simp) with hplastdef
      have hplmem : plast ∈ splitSeps s.data := List.getLast_mem _
      have hpldig : pyStrIsdigit plast = true := hall plast hplmem
      rw [pyStrIsdigit, Bool.and_eq_true] at hpldig
      have hplne : plast ≠ [] := by
        intro hx
        rw [hx] at hpldig
        simp at hpldig
      obtain ⟨pre, hpre⟩ := splitSeps_last_suffix s.data plast hplast
      obtain ⟨d, hd, hddig⟩ := getLast?_all_digit plast hplne hpldig.2
      have hslast : s.data.getLast? = some d := by
        rw [hpre, List.getLast?_append_of_ne_nil pre hplne, hd]
      have hcs2 : s.data = c :: (p2 ++ σ :: r) := by
        rw [hcs, List.cons_append]
      have hstrip : stripPyWs s.data = s.data := by
        rw [hcs2]
        apply stripPyWs_eq_self c _ d (isDigit_not_ws c hc) _ (isDigit_not_ws d hddig)
        rw [← hcs2]
        exact hslast
      constructor
      · rw [pyIntable, hstrip, hcs2, pyIntStr_cons_digit _ _ hc, ← List.cons_append]
        exact digitsU_sep_false (c :: p2) hcall σ r hσ
      · rw [pyFloatable, hstrip, hcs2, pyFloatStr_cons_digit _ _ hc,
          pyInfNan_digit_false _ _ hc, pyFloatNum_cons_digit _ _ hc,
          chompRest_digits_sep p2 hp2all σ r hσ, pyAfterIntDigits_sep_false σ r hσ,
          Bool.and_false, Bool.or_false]

/-- C2: `infer_data_type` is total by construction (the `try`/`except`
probes are modelled by total acceptance tests, so the Lean function is
defined on every string), satisfies the six specified examples, and the
check order integer, float, boolean, date, string means any string Python
`int` accepts is classified `integer` (never `float`), and no date-shaped
string is ever classified `integer` or `float`. -/
theorem infer_data_type_spec :
    infer_data_type "" = "null" ∧
    infer_data_type "42" = "integer" ∧
    infer_data_type "42.5" = "float" ∧
    infer_data_type "true" = "boolean" ∧
    infer_data_type "2024-01-05" = "date" ∧
    infer_data_type "hello" = "string" ∧
    (∀ s, pyIntable s = true → infer_data_type s = "integer") ∧
    (∀ s, dateCheck s = true →
      infer_data_type s ≠ "integer" ∧ infer_data_type s ≠ "float") := by
  refine ⟨by decide, by decide, by decide, by decide, by decide, by decide, ?_, ?_⟩
  · intro s h
    have hs : ¬s = "" := by
      intro hx
      rw [hx] at h
      exact absurd h (by decide)
    rw [infer_data_type, if_neg hs, if_pos h]
  · intro s h
    obtain ⟨hint, hfl⟩ := dateCheck_not_int_float s h
    have hs : ¬s = "" := by
      intro hx
      rw [hx] at h
      exact absurd h (by decide)
    rw [infer_data_type]
    simp only [hs, hint, hfl, h, if_false, Bool.false_eq_true]
    split_ifs <;> exact ⟨by decide, by decide⟩

/-- Witness for C2's quantified clauses: a Python-int string is inferred
`integer`, and the date-shaped string `3-4` is inferred as neither
`integer` nor `float`. -/
theorem infer_data_type_spec_witness :
    infer_data_type "7" = "integer" ∧
    (infer_data_type "3-4" ≠ "integer" ∧ infer_data_type "3-4" ≠ "float") :=
  ⟨infer_data_type_spec.2.2.2.2.2.2.1 "7" (by decide),
   infer_data_type_spec.2.2.2.2.2.2.2 "3-4" (by decide)⟩

end PBM
